import Mathlib

/-!
# Flow table engine (`OFStateManager/module/src/ft.h`): shallow embedding

The repository publishes the flow-table interface in `ft.h`: the instance
structure (`ft_public_s`: global entry list, strict-match index, cookie
buckets, per-table checksum state `ft_table_t`), the safe-iterator structure
(`ft_iterator_t`), the `FT_ITER` traversal macro, and the declarations of
`ft_add`, `ft_delete`, `ft_overwrite`, `ft_entry_modify_effects`,
`ft_strict_match`, `ft_set_checksum_buckets_size`, `ft_iterator_init`,
`ft_iterator_next`, `ft_iterator_cleanup` and `ft_spawn_iter_task`.
The implementation file `ft.c` is not part of the sources, so the operation
bodies below are modelled from the specification's descriptions (each such
definition's doc comment starts with `Modelled from the spec:`); the
structures, constants and the `FT_ITER` macro are translated from `ft.h`
itself.

Machine integers (64-bit cookies and checksums) are modelled as `Nat` with
bitwise operations; all values stay below `2^64` because the bucketing mask
does, and XOR never enlarges its operands' bit-width.
-/

/-- Constant `#define FT_MAX_TABLES 32` (ft.h line 61). -/
def FT_MAX_TABLES : Nat := 32

/-- Constant `#define FT_COOKIE_PREFIX_LEN 8` (ft.h line 66). -/
def FT_COOKIE_PREFIX_LEN : Nat := 8

/-- Constant `#define FT_COOKIE_PREFIX_MASK (~(uint64_t)0 <<
(64-FT_COOKIE_PREFIX_LEN))` (ft.h line 67): the all-ones 64-bit word shifted
left, truncated to 64 bits. -/
def FT_COOKIE_PREFIX_MASK : Nat :=
  ((2 ^ 64 - 1) <<< (64 - FT_COOKIE_PREFIX_LEN)) % 2 ^ 64

/-- The error codes the header and the spec use: `INDIGO_ERROR_NONE` (success),
`INDIGO_ERROR_EXISTS` (the spec's DUPLICATE), `INDIGO_ERROR_NOT_FOUND`
(ft.h line 215), `INDIGO_ERROR_PARAM` (the spec's INVALID_SIZE). -/
inductive indigo_error_t where
  | INDIGO_ERROR_NONE
  | INDIGO_ERROR_EXISTS
  | INDIGO_ERROR_NOT_FOUND
  | INDIGO_ERROR_PARAM
deriving DecidableEq, Repr

/-- A flow-table entry (`ft_entry_t`, published via `ft_entry.h`): the external
flow id, the strict-key fields (table id, priority, match predicate — the
match is caller-opaque to the engine, modelled as an opaque `Nat` code), the
64-bit cookie, and the instruction/action set ("effects", also opaque). -/
structure ft_entry_t where
  flow_id : Nat
  table_id : Nat
  priority : Nat
  minimatch : Nat
  cookie : Nat
  effects : Nat
deriving DecidableEq, Repr

/-- The strict key of an entry: (table id, priority, match predicate). -/
def strict_key (e : ft_entry_t) : Nat × Nat × Nat :=
  (e.table_id, e.priority, e.minimatch)

/-- Per-table bookkeeping (`ft_table_t`, ft.h lines 94-99): running checksum,
bucket array size, shift mapping cookie prefixes to bucket indices, and the
bucket accumulator array. -/
structure ft_table_t where
  checksum : Nat
  checksum_buckets_size : Nat
  checksum_shift : Nat
  checksum_buckets : List Nat
deriving DecidableEq, Repr

/-- The public instance view (`ft_public_s`, ft.h lines 107-116): the live
entry count, the insertion-ordered Global List, and the per-table checksum
states. The strict-match hashtable and the cookie-bucket membership lists of
`ft.h` are derived indexes over the Global List (the spec's index-coherence
invariant): lookups over them are modelled as lookups over `all_list`. -/
structure ft_public_s where
  current_count : Nat
  all_list : List ft_entry_t
  tables : Nat → ft_table_t

/-- The meta-match query (`of_meta_match_t`) as the strict-match path uses it:
the strict key fields extracted from the query. -/
structure of_meta_match_t where
  table_id : Nat
  priority : Nat
  minimatch : Nat
deriving DecidableEq, Repr

/-- The strict key built from a query. -/
def query_strict_key (q : of_meta_match_t) : Nat × Nat × Nat :=
  (q.table_id, q.priority, q.minimatch)

/-- The safe iterator (`ft_iterator_t`, ft.h lines 125-132): the entry to be
returned by the next `ft_iterator_next` call, and the optional filter. The C
structure's `head`/`links_offset` pointers locate the live list (here passed
explicitly to `ft_iterator_next`) and `entry_links` is the reverse
registration on `next_entry` (here realised by `ft_delete` fixing up every
iterator whose `next_entry` is the deleted entry). The filter is the external
match predicate, kept abstract as a boolean function. -/
structure ft_iterator_t where
  next_entry : Option ft_entry_t
  query : Option (ft_entry_t → Bool)

/-- Apply an optional filter: no query accepts every entry. -/
def applyQuery : Option (ft_entry_t → Bool) → ft_entry_t → Bool
  | none, _ => true
  | some φ, e => φ e

/-- Structural base-2 logarithm with explicit fuel (kernel-reducible). -/
def log2_fuel : Nat → Nat → Nat
  | 0, _ => 0
  | fuel + 1, n => if n < 2 then 0 else log2_fuel fuel (n / 2) + 1

/-- Base-2 logarithm: `ft_log2 n` is `⌊log₂ n⌋` for `n ≥ 1` (fuel `n`
always suffices). -/
def ft_log2 (n : Nat) : Nat := log2_fuel n n

/-- Modelled from the spec: the resize path of `ft.c` (absent from the
sources) must reject a `buckets_size` that is not a power of two. -/
def is_power_of_two (n : Nat) : Bool := n == 2 ^ ft_log2 n

/-- The bucket index of a cookie: the fixed 8-bit high-order prefix
(`FT_COOKIE_PREFIX_MASK`, ft.h line 67) shifted down by the table's current
shift value (spec §3: "a shift value maps prefix bits to bucket index"). -/
def cookie_bucket_index (shift : Nat) (cookie : Nat) : Nat :=
  (cookie &&& FT_COOKIE_PREFIX_MASK) >>> shift

/-- XOR of a list of 64-bit words. -/
def listXor : List Nat → Nat
  | [] => 0
  | x :: xs => x ^^^ listXor xs

/-- Modelled from the spec: the checksum bookkeeping of `ft.c` (absent from
the sources). XOR the cookie into its prefix bucket's accumulator and into
the table's running checksum; the identical operation also removes a cookie,
XOR being self-inverse (spec §4.3(c)). -/
def ft_checksum_xor (t : ft_table_t) (cookie : Nat) : ft_table_t :=
  let idx := cookie_bucket_index t.checksum_shift cookie
  { t with
    checksum := t.checksum ^^^ cookie,
    checksum_buckets :=
      t.checksum_buckets.set idx ((t.checksum_buckets.getD idx 0) ^^^ cookie) }

/-- Point update of the per-table array. -/
def tables_update (ts : Nat → ft_table_t) (tid : Nat) (t : ft_table_t) :
    Nat → ft_table_t :=
  fun i => if i = tid then t else ts i

/-- Modelled from the spec: `ft_create` (ft.c absent) — empty Global List,
empty index, zero-sized cookie bucket arrays, zeroed per-table checksum
state (spec §4.1). -/
def ft_create : ft_public_s :=
  { current_count := 0,
    all_list := [],
    tables := fun _ =>
      { checksum := 0, checksum_buckets_size := 0, checksum_shift := 0,
        checksum_buckets := [] } }

/-- Modelled from the spec: `ft_add` (ft.c absent). If an entry with the same
strict key is live, fail with DUPLICATE and mutate nothing; otherwise append
the entry to the Global List (insertion order), account its cookie in its
table's checksum bucket and running checksum, and increment the live count
(spec §4.2). The strict-match index insertion is implicit in the list
membership (the index is derived). -/
def ft_add (ft : ft_public_s) (e : ft_entry_t) : indigo_error_t × ft_public_s :=
  if ft.all_list.any (fun x => strict_key x == strict_key e) then
    (.INDIGO_ERROR_EXISTS, ft)
  else
    (.INDIGO_ERROR_NONE,
      { current_count := ft.current_count + 1,
        all_list := ft.all_list ++ [e],
        tables := tables_update ft.tables e.table_id
          (ft_checksum_xor (ft.tables e.table_id) e.cookie) })

/-- The successor of an entry in a list: the element immediately after the
first occurrence of `e`, `none` if `e` is last or absent. -/
def list_successor (l : List ft_entry_t) (e : ft_entry_t) : Option ft_entry_t :=
  match l with
  | [] => none
  | x :: xs => if x = e then xs.head? else list_successor xs e

/-- The suffix of the list strictly after the first occurrence of `e`. -/
def entries_after (l : List ft_entry_t) (e : ft_entry_t) : List ft_entry_t :=
  match l with
  | [] => []
  | x :: xs => if x = e then xs else entries_after xs e

/-- Modelled from the spec: the per-iterator fix-up `ft_delete` performs
before unlinking an entry (spec §4.3(a)): an iterator whose "next to return"
is the deleted entry is advanced to the entry's successor in the Global
List. -/
def ft_iterator_fixup (l : List ft_entry_t) (e : ft_entry_t)
    (it : ft_iterator_t) : ft_iterator_t :=
  if it.next_entry = some e then { it with next_entry := list_successor l e }
  else it

/-- Modelled from the spec: `ft_delete` (ft.c absent). In order (spec §4.3):
(a) advance every live iterator referencing the entry as "next" to the
entry's successor, computed in the Global List before unlinking; (b) the
strict-match index removal is implicit (derived index); (c) XOR the cookie
back out of its bucket accumulator and the running checksum; (d) unlink from
the Global List; (f) decrement the live count. `iters` is the collection of
live iterators (the C code reaches them through the entry's reverse
links). -/
def ft_delete (ft : ft_public_s) (iters : List ft_iterator_t)
    (e : ft_entry_t) : ft_public_s × List ft_iterator_t :=
  ({ current_count := ft.current_count - 1,
     all_list := ft.all_list.erase e,
     tables := tables_update ft.tables e.table_id
       (ft_checksum_xor (ft.tables e.table_id) e.cookie) },
   iters.map (ft_iterator_fixup ft.all_list e))

/-- Modelled from the spec: `ft_overwrite` (ft.c absent). Replaces cookie and
effects in place (identity and list position preserved), XORs the old cookie
out of and the new cookie into the checksum bookkeeping (spec §4.4). -/
def ft_overwrite (ft : ft_public_s) (e : ft_entry_t)
    (new_cookie new_effects : Nat) : ft_public_s :=
  let e' : ft_entry_t := { e with cookie := new_cookie, effects := new_effects }
  { ft with
    all_list := ft.all_list.map (fun x => if x = e then e' else x),
    tables := tables_update ft.tables e.table_id
      (ft_checksum_xor (ft_checksum_xor (ft.tables e.table_id) e.cookie)
        new_cookie) }

/-- Modelled from the spec: `ft_entry_modify_effects` (ft.c absent). Updates
only the instruction/action set; key fields, cookie and the checksum state
are untouched (spec §4.4). -/
def ft_entry_modify_effects (ft : ft_public_s) (e : ft_entry_t)
    (new_effects : Nat) : ft_public_s :=
  { ft with
    all_list := ft.all_list.map
      (fun x => if x = e then { e with effects := new_effects } else x) }

/-- Modelled from the spec: `ft_strict_match` (ft.c absent). Builds the
strict key from the query and returns the first (only) live entry with
exactly that key, else NOT_FOUND (spec §4.5); the strict-match index is
derived from the Global List. -/
def ft_strict_match (ft : ft_public_s) (q : of_meta_match_t) :
    Except indigo_error_t ft_entry_t :=
  match ft.all_list.find? (fun e => strict_key e == query_strict_key q) with
  | some e => .ok e
  | none => .error .INDIGO_ERROR_NOT_FOUND

/-- Scan of a list of entries XORing each one's cookie into its bucket of the
accumulator array. -/
def rebuild_fold (shift : Nat) (entries : List ft_entry_t)
    (init : List Nat) : List Nat :=
  entries.foldl
    (fun acc e =>
      let idx := cookie_bucket_index shift e.cookie
      acc.set idx ((acc.getD idx 0) ^^^ e.cookie))
    init

/-- Modelled from the spec: the bucket-array rebuild inside
`ft_set_checksum_buckets_size` (ft.c absent): starting from an all-zero
array, re-scan every live entry of the table, re-derive its bucket and XOR
its cookie into that bucket (spec §4.6). -/
def rebuild_buckets (shift : Nat) (entries : List ft_entry_t) (n : Nat) :
    List Nat :=
  rebuild_fold shift entries (List.replicate n 0)

/-- Modelled from the spec: `ft_set_checksum_buckets_size` (ft.c absent).
A size that is not a power of two is rejected before any mutation; otherwise
the bucket array and shift are rebuilt and every bucket accumulator is
recomputed from the table's live entries; the running checksum is not
touched (spec §4.6). -/
def ft_set_checksum_buckets_size (ft : ft_public_s) (table_id : Nat)
    (buckets_size : Nat) : indigo_error_t × ft_public_s :=
  if is_power_of_two buckets_size then
    let shift := 64 - ft_log2 buckets_size
    let entries := ft.all_list.filter (fun e => e.table_id == table_id)
    (.INDIGO_ERROR_NONE,
      { ft with
        tables := tables_update ft.tables table_id
          { checksum := (ft.tables table_id).checksum,
            checksum_buckets_size := buckets_size,
            checksum_shift := shift,
            checksum_buckets := rebuild_buckets shift entries buckets_size } })
  else
    (.INDIGO_ERROR_PARAM, ft)

/-- The next Global-List entry after `e` satisfying the filter. -/
def next_matching (l : List ft_entry_t) (e : ft_entry_t)
    (φ : Option (ft_entry_t → Bool)) : Option ft_entry_t :=
  (entries_after l e).find? (applyQuery φ)

/-- Modelled from the spec: `ft_iterator_init` (ft.c absent). Position the
cursor at the first Global-List entry matching the filter, if any
(spec §4.7). -/
def ft_iterator_init (ft : ft_public_s) (φ : Option (ft_entry_t → Bool)) :
    ft_iterator_t :=
  { next_entry := ft.all_list.find? (applyQuery φ), query := φ }

/-- Modelled from the spec: `ft_iterator_next` (ft.c absent). Return the
currently held entry and advance the cursor to the next Global-List entry
satisfying the filter; return `none` once exhausted (spec §4.7). The
deregister/re-register steps are the reverse links realised by
`ft_delete`'s fix-up. -/
def ft_iterator_next (ft : ft_public_s) (it : ft_iterator_t) :
    Option ft_entry_t × ft_iterator_t :=
  match it.next_entry with
  | none => (none, it)
  | some e =>
      (some e, { it with next_entry := next_matching ft.all_list e it.query })

/-- Modelled from the spec: `ft_iterator_cleanup` (ft.c absent). Deregister
from any held entry (spec §4.7); in this model the cursor is simply
dropped. -/
def ft_iterator_cleanup (it : ft_iterator_t) : ft_iterator_t :=
  { it with next_entry := none }

/-- Fuel-bounded run of the background iteration loop: repeatedly call
`ft_iterator_next`, recording `some e` per yielded entry and a final `none`
(the terminal sentinel callback). -/
def iter_collect : Nat → ft_public_s → ft_iterator_t → List (Option ft_entry_t)
  | 0, _, _ => []
  | fuel + 1, ft, it =>
      match ft_iterator_next ft it with
      | (none, _) => [none]
      | (some e, it') => some e :: iter_collect fuel ft it'

/-- Modelled from the spec: the callback trace of the task spawned by
`ft_spawn_iter_task` (ft.c absent) when the table is not mutated during the
traversal: the task repeatedly calls `ft_iterator_next`, invoking the
callback on each returned entry, and finally invokes the callback once with
a null entry (spec §4.8). Fuel `length + 1` covers the whole list plus the
terminal step. -/
def ft_spawn_iter_task_trace (ft : ft_public_s)
    (φ : Option (ft_entry_t → Bool)) : List (Option ft_entry_t) :=
  iter_collect (ft.all_list.length + 1) ft (ft_iterator_init ft φ)

/-- One step of the `FT_ITER` macro's loop (ft.h lines 146-151), shallowly
embedded: the macro saves `_next = _cur->next` before the body executes, so
the successor is computed in the pre-body list; then the body runs (it may
unlink the current entry) and the cursor moves to the saved successor. The
fuel bounds the number of body executions; the visited entries are
returned alongside the final state. -/
def ft_iter_loop (fuel : Nat) (st : ft_public_s) (cur : Option ft_entry_t)
    (body : ft_public_s → ft_entry_t → ft_public_s) :
    ft_public_s × List ft_entry_t :=
  match fuel, cur with
  | 0, _ => (st, [])
  | _ + 1, none => (st, [])
  | fuel + 1, some e =>
      let nxt := list_successor st.all_list e
      let st' := body st e
      let r := ft_iter_loop fuel st' nxt body
      (r.1, e :: r.2)

/-- The `FT_ITER` macro (ft.h lines 146-151): on an empty list the guarded
`for` never runs; otherwise the cursor starts at the first list node and the
loop runs the body on each current entry, having saved the successor link
first. -/
def FT_ITER_run (st : ft_public_s)
    (body : ft_public_s → ft_entry_t → ft_public_s) :
    ft_public_s × List ft_entry_t :=
  ft_iter_loop (st.all_list.length + 1) st st.all_list.head? body

/-- The operations of the engine, for stating invariants over arbitrary
operation sequences. Deletion, overwrite and modify guard on their spec
precondition that the entry is live (spec §4.3, §4.4). -/
inductive ft_op where
  | op_add (e : ft_entry_t)
  | op_delete (e : ft_entry_t)
  | op_overwrite (e : ft_entry_t) (new_cookie new_effects : Nat)
  | op_modify_effects (e : ft_entry_t) (new_effects : Nat)
  | op_set_checksum_buckets_size (table_id : Nat) (buckets_size : Nat)

/-- Apply one operation to an instance ignoring its status result. -/
def ft_apply_op (ft : ft_public_s) : ft_op → ft_public_s
  | .op_add e => (ft_add ft e).2
  | .op_delete e =>
      if e ∈ ft.all_list then (ft_delete ft [] e).1 else ft
  | .op_overwrite e c fx =>
      if e ∈ ft.all_list then ft_overwrite ft e c fx else ft
  | .op_modify_effects e fx =>
      if e ∈ ft.all_list then ft_entry_modify_effects ft e fx else ft
  | .op_set_checksum_buckets_size tid n => (ft_set_checksum_buckets_size ft tid n).2

/-- Apply a sequence of operations left to right. -/
def ft_apply_ops (ft : ft_public_s) (ops : List ft_op) : ft_public_s :=
  ops.foldl ft_apply_op ft

/-- The cookies of the live entries of one table, in Global-List order. -/
def tableCookies (tid : Nat) (l : List ft_entry_t) : List Nat :=
  (l.filter (fun e => e.table_id == tid)).map (fun e => e.cookie)

/-- Strict keys are pairwise distinct among live entries (the strict-match
index's key-uniqueness). -/
def keysUnique (l : List ft_entry_t) : Prop :=
  l.Pairwise (fun a b => strict_key a ≠ strict_key b)

/-- Structural well-formedness of one table's checksum state: the bucket
array has its declared size, the size is a power of two, and the shift is
64 minus its logarithm (so prefixes map into range). -/
def table_wf (t : ft_table_t) : Prop :=
  t.checksum_buckets.length = t.checksum_buckets_size ∧
  t.checksum_buckets_size = 2 ^ ft_log2 t.checksum_buckets_size ∧
  t.checksum_shift = 64 - ft_log2 t.checksum_buckets_size

/-- The per-table checksum invariant (spec §3): the running checksum is the
XOR of all bucket accumulators and also the XOR of the cookies of the
table's live entries. -/
def table_invariant (ft : ft_public_s) (tid : Nat) : Prop :=
  (ft.tables tid).checksum = listXor (ft.tables tid).checksum_buckets ∧
  (ft.tables tid).checksum = listXor (tableCookies tid ft.all_list)

/-- Global well-formedness: unique strict keys and, per table, structural
bucket well-formedness plus the checksum invariant. -/
def ft_wf (ft : ft_public_s) : Prop :=
  keysUnique ft.all_list ∧
  ∀ tid, table_wf (ft.tables tid) ∧ table_invariant ft tid

/-! ## Concrete fixtures used by witnesses -/

/-- Demo entry (table 0, priority 10, match M1, cookie 0xAABB, id 1). -/
def eW1 : ft_entry_t :=
  { flow_id := 1, table_id := 0, priority := 10, minimatch := 100,
    cookie := 0xAABB, effects := 0 }

/-- Demo entry 2. -/
def eW2 : ft_entry_t :=
  { flow_id := 2, table_id := 0, priority := 20, minimatch := 200,
    cookie := 7, effects := 0 }

/-- Demo entry 3. -/
def eW3 : ft_entry_t :=
  { flow_id := 3, table_id := 0, priority := 30, minimatch := 300,
    cookie := 9, effects := 0 }

/-- Demo entry with the same strict key as `eW1` but a different id/cookie. -/
def eWdup : ft_entry_t :=
  { flow_id := 9, table_id := 0, priority := 10, minimatch := 100,
    cookie := 5, effects := 0 }

/-- A well-formed single-bucket table state. -/
def tW : ft_table_t :=
  { checksum := 0, checksum_buckets_size := 1, checksum_shift := 64,
    checksum_buckets := [0] }

/-- An empty instance whose tables all have one (zeroed) checksum bucket. -/
def ftW0 : ft_public_s :=
  { current_count := 0, all_list := [], tables := fun _ => tW }

/-- Instance holding `eW1` only. -/
def ftW1 : ft_public_s :=
  { current_count := 1, all_list := [eW1], tables := fun _ => tW }

/-- Instance holding `eW1` and `eW2`. -/
def ftW12 : ft_public_s :=
  { current_count := 2, all_list := [eW1, eW2], tables := fun _ => tW }

/-- Instance holding `eW1`, `eW2` and `eW3`. -/
def ftW123 : ft_public_s :=
  { current_count := 3, all_list := [eW1, eW2, eW3], tables := fun _ => tW }

/-- An unfiltered iterator parked on `eW1`. -/
def itW1 : ft_iterator_t := { next_entry := some eW1, query := none }

/-- A second unfiltered iterator parked on `eW1`. -/
def itW2 : ft_iterator_t := { next_entry := some eW1, query := none }

/-- The strict-match query for `eW1`'s key. -/
def qW : of_meta_match_t := { table_id := 0, priority := 10, minimatch := 100 }

/-- A traversal body that unlinks the current entry from the Global List. -/
def bodyW (st : ft_public_s) (e : ft_entry_t) : ft_public_s :=
  { st with all_list := st.all_list.erase e }

/-- A demo operation sequence: two adds, a resize, a delete. -/
def opsW : List ft_op :=
  [ft_op.op_add eW1, ft_op.op_add eW2,
   ft_op.op_set_checksum_buckets_size 0 4, ft_op.op_delete eW1]

/-! ## Arithmetic and list lemmas -/

theorem listXor_append (a b : List Nat) :
    listXor (a ++ b) = listXor a ^^^ listXor b := by
  induction a with
  | nil => simp [listXor]
  | cons x xs ih => simp [listXor, ih, Nat.xor_assoc]

theorem listXor_replicate_zero (n : Nat) : listXor (List.replicate n 0) = 0 := by
  induction n with
  | zero => rfl
  | succ n ih => simp [List.replicate, listXor, ih]

theorem listXor_set_xor (l : List Nat) (i c : Nat) (h : i < l.length) :
    listXor (l.set i (l.getD i 0 ^^^ c)) = listXor l ^^^ c := by
  induction l generalizing i with
  | nil => simp at h
  | cons x xs ih =>
    cases i with
    | zero =>
      simp [listXor, List.set]
      rw [Nat.xor_assoc, Nat.xor_assoc, Nat.xor_comm c (listXor xs)]
    | succ i =>
      simp only [List.set, listXor, List.getD_cons_succ]
      rw [ih i (by simpa using h), Nat.xor_assoc]

theorem listSet_xor_xor (l : List Nat) (i c : Nat) :
    (l.set i (l.getD i 0 ^^^ c)).set i
      ((l.set i (l.getD i 0 ^^^ c)).getD i 0 ^^^ c) = l := by
  induction l generalizing i with
  | nil => rfl
  | cons x xs ih =>
    cases i with
    | zero =>
      simp [List.set, Nat.xor_assoc]
    | succ i =>
      simp only [List.set, List.getD_cons_succ]
      rw [ih i]

theorem log2_fuel_pow (k : Nat) : ∀ fuel, 2 ^ k ≤ fuel →
    log2_fuel fuel (2 ^ k) = k := by
  induction k with
  | zero =>
    intro fuel h
    match fuel, h with
    | fuel + 1, _ => simp [log2_fuel]
  | succ k ih =>
    intro fuel h
    have h2 : 2 ≤ 2 ^ (k + 1) := by
      calc 2 = 2 ^ 1 := rfl
      _ ≤ 2 ^ (k + 1) := Nat.pow_le_pow_right (by omega) (by omega)
    match fuel, Nat.le_trans h2 h with
    | fuel + 1, _ =>
      have hdiv : 2 ^ (k + 1) / 2 = 2 ^ k := by
        rw [Nat.pow_succ]
        exact Nat.mul_div_cancel _ (by omega)
      have hfuel : 2 ^ k ≤ fuel := by
        have h1 : 1 ≤ 2 ^ k := Nat.one_le_two_pow
        have : 2 ^ (k + 1) = 2 * 2 ^ k := by rw [Nat.pow_succ]; ring
        omega
      simp only [log2_fuel, hdiv]
      rw [if_neg (by omega), ih fuel hfuel]

theorem ft_log2_pow (k : Nat) : ft_log2 (2 ^ k) = k :=
  log2_fuel_pow k (2 ^ k) (Nat.le_refl _)

theorem is_power_of_two_spec (n : Nat) (h : is_power_of_two n = true) :
    n = 2 ^ ft_log2 n := by
  simpa [is_power_of_two] using h

theorem is_power_of_two_pow (k : Nat) : is_power_of_two (2 ^ k) = true := by
  simp [is_power_of_two, ft_log2_pow]

theorem cookie_bucket_index_lt (k c : Nat) :
    cookie_bucket_index (64 - k) c < 2 ^ k := by
  have hmask : FT_COOKIE_PREFIX_MASK < 2 ^ 64 := by decide
  have hx : c &&& FT_COOKIE_PREFIX_MASK < 2 ^ 64 :=
    Nat.lt_of_le_of_lt Nat.and_le_right hmask
  have hpos : 0 < 2 ^ (64 - k) := Nat.pos_pow_of_pos _ (by omega)
  rw [cookie_bucket_index, Nat.shiftRight_eq_div_pow,
    Nat.div_lt_iff_lt_mul hpos]
  calc c &&& FT_COOKIE_PREFIX_MASK < 2 ^ 64 := hx
  _ ≤ 2 ^ (k + (64 - k)) := Nat.pow_le_pow_right (by omega) (by omega)
  _ = 2 ^ k * 2 ^ (64 - k) := Nat.pow_add 2 k (64 - k)

theorem cookie_bucket_index_lt_of_wf {t : ft_table_t} (h : table_wf t)
    (c : Nat) : cookie_bucket_index t.checksum_shift c <
      t.checksum_buckets.length := by
  obtain ⟨hlen, hsize, hshift⟩ := h
  rw [hlen, hshift]
  exact lt_of_lt_of_eq
    (cookie_bucket_index_lt (ft_log2 t.checksum_buckets_size) c) hsize.symm

/-! ## XOR algebra helpers -/

theorem nat_xor_left_comm (a b c : Nat) :
    a ^^^ (b ^^^ c) = b ^^^ (a ^^^ c) := by
  rw [← Nat.xor_assoc, Nat.xor_comm a b, Nat.xor_assoc]

theorem nat_xor_cancel (a b : Nat) : a ^^^ (a ^^^ b) = b := by
  rw [← Nat.xor_assoc, Nat.xor_self, Nat.zero_xor]

/-! ## Lemmas about per-table cookie lists -/

theorem tableCookies_nil (tid : Nat) : tableCookies tid [] = [] := rfl

theorem tcx_cons (tid : Nat) (x : ft_entry_t) (xs : List ft_entry_t) :
    listXor (tableCookies tid (x :: xs)) =
      (if x.table_id = tid then x.cookie else 0) ^^^
        listXor (tableCookies tid xs) := by
  by_cases h : x.table_id = tid
  · simp [tableCookies, List.filter_cons, h, listXor]
  · simp [tableCookies, List.filter_cons, h]

theorem listXor_tableCookies_append (tid : Nat) (l : List ft_entry_t)
    (e : ft_entry_t) :
    listXor (tableCookies tid (l ++ [e])) =
      listXor (tableCookies tid l) ^^^
        (if e.table_id = tid then e.cookie else 0) := by
  rw [tableCookies, List.filter_append, List.map_append, listXor_append]
  by_cases h : e.table_id = tid
  · simp [h, tableCookies, listXor]
  · simp [h, tableCookies, listXor]

theorem listXor_tableCookies_erase (tid : Nat) (l : List ft_entry_t)
    (e : ft_entry_t) (he : e ∈ l) :
    listXor (tableCookies tid (l.erase e)) =
      listXor (tableCookies tid l) ^^^
        (if e.table_id = tid then e.cookie else 0) := by
  induction l with
  | nil => cases he
  | cons x xs ih =>
    by_cases hx : x = e
    · subst hx
      rw [List.erase_cons_head, tcx_cons]
      rw [Nat.xor_comm (if x.table_id = tid then x.cookie else 0)
        (listXor (tableCookies tid xs)), Nat.xor_assoc, Nat.xor_self,
        Nat.xor_zero]
    · have he' : e ∈ xs := by
        cases he with
        | head => exact absurd rfl hx
        | tail _ h => exact h
      rw [List.erase_cons_tail (by simpa using hx), tcx_cons, tcx_cons,
        ih he', Nat.xor_assoc]

theorem map_replace_id (l : List ft_entry_t) (e e' : ft_entry_t)
    (h : e ∉ l) : l.map (fun x => if x = e then e' else x) = l := by
  induction l with
  | nil => rfl
  | cons x xs ih =>
    have hx : x ≠ e := fun hx => h (hx ▸ List.mem_cons_self x xs)
    have hxs : e ∉ xs := fun hxs => h (List.mem_cons_of_mem x hxs)
    simp only [List.map_cons, if_neg hx, ih hxs]

theorem listXor_tableCookies_replace (tid : Nat) (l : List ft_entry_t)
    (e e' : ft_entry_t) (he : e ∈ l) (hnd : l.Nodup)
    (ht : e'.table_id = e.table_id) :
    listXor (tableCookies tid (l.map (fun x => if x = e then e' else x))) =
      listXor (tableCookies tid l) ^^^
        (if e.table_id = tid then e.cookie ^^^ e'.cookie else 0) := by
  induction l with
  | nil => cases he
  | cons x xs ih =>
    have hndx : x ∉ xs := (List.nodup_cons.mp hnd).1
    have hndxs : xs.Nodup := (List.nodup_cons.mp hnd).2
    by_cases hx : x = e
    · subst hx
      rw [List.map_cons, if_pos rfl, map_replace_id xs x e' hndx, tcx_cons,
        tcx_cons, ht]
      by_cases h : x.table_id = tid
      · rw [if_pos h, if_pos h, if_pos h]
        simp [Nat.xor_assoc, Nat.xor_comm, nat_xor_left_comm, nat_xor_cancel]
      · rw [if_neg h, if_neg h, if_neg h, Nat.xor_zero]
    · have he' : e ∈ xs := by
        cases he with
        | head => exact absurd rfl hx
        | tail _ h => exact h
      rw [List.map_cons, if_neg hx, tcx_cons, tcx_cons, ih he' hndxs,
        Nat.xor_assoc]

/-! ## Rebuild lemmas -/

theorem rebuild_fold_length (shift : Nat) (entries : List ft_entry_t) :
    ∀ init : List Nat, (rebuild_fold shift entries init).length = init.length := by
  induction entries with
  | nil => intro init; rfl
  | cons e es ih =>
    intro init
    rw [show rebuild_fold shift (e :: es) init = rebuild_fold shift es
        (init.set (cookie_bucket_index shift e.cookie)
          ((init.getD (cookie_bucket_index shift e.cookie) 0) ^^^ e.cookie))
      from rfl, ih, List.length_set]

theorem rebuild_fold_xor (shift : Nat) (entries : List ft_entry_t) :
    ∀ init : List Nat,
      (∀ e ∈ entries, cookie_bucket_index shift e.cookie < init.length) →
      listXor (rebuild_fold shift entries init) =
        listXor init ^^^ listXor (entries.map (fun e => e.cookie)) := by
  induction entries with
  | nil => intro init _; simp [rebuild_fold, listXor]
  | cons e es ih =>
    intro init h
    have hidx : cookie_bucket_index shift e.cookie < init.length :=
      h e (List.mem_cons_self e es)
    have h' : ∀ x ∈ es, cookie_bucket_index shift x.cookie <
        (init.set (cookie_bucket_index shift e.cookie)
          ((init.getD (cookie_bucket_index shift e.cookie) 0) ^^^
            e.cookie)).length := by
      intro x hx
      rw [List.length_set]
      exact h x (List.mem_cons_of_mem e hx)
    rw [show rebuild_fold shift (e :: es) init = rebuild_fold shift es
        (init.set (cookie_bucket_index shift e.cookie)
          ((init.getD (cookie_bucket_index shift e.cookie) 0) ^^^ e.cookie))
      from rfl, ih _ h', listXor_set_xor init _ _ hidx, List.map_cons,
      show listXor (e.cookie :: es.map (fun e => e.cookie)) =
        e.cookie ^^^ listXor (es.map (fun e => e.cookie)) from rfl,
      Nat.xor_assoc]

theorem rebuild_buckets_length (shift : Nat) (entries : List ft_entry_t)
    (n : Nat) : (rebuild_buckets shift entries n).length = n := by
  rw [rebuild_buckets, rebuild_fold_length, List.length_replicate]

theorem rebuild_buckets_xor (shift : Nat) (entries : List ft_entry_t)
    (n : Nat) (h : ∀ e ∈ entries, cookie_bucket_index shift e.cookie < n) :
    listXor (rebuild_buckets shift entries n) =
      listXor (entries.map (fun e => e.cookie)) := by
  rw [rebuild_buckets, rebuild_fold_xor, listXor_replicate_zero, Nat.zero_xor]
  simpa using h

/-! ## Key uniqueness lemmas -/

theorem keysUnique_nodup {l : List ft_entry_t} (h : keysUnique l) :
    l.Nodup :=
  h.imp (fun hab he => hab (congrArg strict_key he))

theorem keysUnique_key_inj {l : List ft_entry_t} (h : keysUnique l)
    {a b : ft_entry_t} (ha : a ∈ l) (hb : b ∈ l)
    (hk : strict_key a = strict_key b) : a = b := by
  by_contra hne
  have hsym : Symmetric (fun a b : ft_entry_t => strict_key a ≠ strict_key b) :=
    fun x y hxy he => hxy he.symm
  exact List.Pairwise.forall hsym h ha hb hne hk

theorem keysUnique_replace {l : List ft_entry_t} {e e' : ft_entry_t}
    (h : keysUnique l) (hk : strict_key e' = strict_key e) :
    keysUnique (l.map (fun x => if x = e then e' else x)) := by
  rw [keysUnique, List.pairwise_map]
  have hf : ∀ x : ft_entry_t,
      strict_key (if x = e then e' else x) = strict_key x := by
    intro x
    by_cases hx : x = e
    · simp [hx, hk]
    · simp [hx]
  exact h.imp (fun {a b} hab => by rw [hf a, hf b]; exact hab)

/-! ## Projection lemmas for the checksum update and table array -/

theorem tables_update_self (ts : Nat → ft_table_t) (tid : Nat)
    (t : ft_table_t) : tables_update ts tid t tid = t := by
  simp [tables_update]

theorem tables_update_other (ts : Nat → ft_table_t) (tid : Nat)
    (t : ft_table_t) {i : Nat} (h : i ≠ tid) :
    tables_update ts tid t i = ts i := by
  simp [tables_update, h]

theorem ft_checksum_xor_checksum (t : ft_table_t) (c : Nat) :
    (ft_checksum_xor t c).checksum = t.checksum ^^^ c := rfl

theorem ft_checksum_xor_wf {t : ft_table_t} (h : table_wf t) (c : Nat) :
    table_wf (ft_checksum_xor t c) := by
  obtain ⟨hlen, hsize, hshift⟩ := h
  exact ⟨by simp [ft_checksum_xor, List.length_set, hlen],
    by simpa [ft_checksum_xor] using hsize,
    by simpa [ft_checksum_xor] using hshift⟩

theorem ft_checksum_xor_buckets_xor {t : ft_table_t} (h : table_wf t)
    (c : Nat) : listXor (ft_checksum_xor t c).checksum_buckets =
      listXor t.checksum_buckets ^^^ c :=
  listXor_set_xor t.checksum_buckets _ c (cookie_bucket_index_lt_of_wf h c)

/-! ## Preservation of well-formedness by the operations -/

theorem ft_wf_add (ft : ft_public_s) (e : ft_entry_t) (h : ft_wf ft) :
    ft_wf (ft_add ft e).2 := by
  by_cases hdup : (ft.all_list.any fun x => strict_key x == strict_key e) = true
  · rw [ft_add, if_pos hdup]
    exact h
  · rw [ft_add, if_neg hdup]
    obtain ⟨hk, htab⟩ := h
    constructor
    · show keysUnique (ft.all_list ++ [e])
      rw [keysUnique, List.pairwise_append]
      refine ⟨hk, List.pairwise_singleton _ _, ?_⟩
      intro a ha b hb
      have hb' : b = e := by simpa using hb
      subst hb'
      intro hkey
      apply hdup
      rw [List.any_eq_true]
      exact ⟨a, ha, by simpa using hkey⟩
    · intro tid
      obtain ⟨hwf, hi1, hi2⟩ := htab tid
      by_cases ht : tid = e.table_id
      · subst ht
        refine ⟨?_, ?_, ?_⟩
        · show table_wf (tables_update ft.tables e.table_id _ e.table_id)
          rw [tables_update_self]
          exact ft_checksum_xor_wf hwf e.cookie
        · show (tables_update ft.tables e.table_id _ e.table_id).checksum =
            listXor (tables_update ft.tables e.table_id _
              e.table_id).checksum_buckets
          rw [tables_update_self, ft_checksum_xor_checksum,
            ft_checksum_xor_buckets_xor hwf, hi1]
        · show (tables_update ft.tables e.table_id _ e.table_id).checksum =
            listXor (tableCookies e.table_id (ft.all_list ++ [e]))
          rw [tables_update_self, ft_checksum_xor_checksum,
            listXor_tableCookies_append, if_pos rfl, hi2]
      · refine ⟨?_, ?_, ?_⟩
        · show table_wf (tables_update ft.tables e.table_id _ tid)
          rw [tables_update_other _ _ _ ht]
          exact hwf
        · show (tables_update ft.tables e.table_id _ tid).checksum =
            listXor (tables_update ft.tables e.table_id _ tid).checksum_buckets
          rw [tables_update_other _ _ _ ht]
          exact hi1
        · show (tables_update ft.tables e.table_id _ tid).checksum =
            listXor (tableCookies tid (ft.all_list ++ [e]))
          rw [tables_update_other _ _ _ ht, listXor_tableCookies_append,
            if_neg (fun hh => ht hh.symm), Nat.xor_zero]
          exact hi2

theorem ft_wf_delete (ft : ft_public_s) (iters : List ft_iterator_t)
    (e : ft_entry_t) (he : e ∈ ft.all_list) (h : ft_wf ft) :
    ft_wf (ft_delete ft iters e).1 := by
  obtain ⟨hk, htab⟩ := h
  constructor
  · show keysUnique (ft.all_list.erase e)
    exact hk.sublist (List.erase_sublist e ft.all_list)
  · intro tid
    obtain ⟨hwf, hi1, hi2⟩ := htab tid
    by_cases ht : tid = e.table_id
    · subst ht
      refine ⟨?_, ?_, ?_⟩
      · show table_wf (tables_update ft.tables e.table_id _ e.table_id)
        rw [tables_update_self]
        exact ft_checksum_xor_wf hwf e.cookie
      · show (tables_update ft.tables e.table_id _ e.table_id).checksum =
          listXor (tables_update ft.tables e.table_id _
            e.table_id).checksum_buckets
        rw [tables_update_self, ft_checksum_xor_checksum,
          ft_checksum_xor_buckets_xor hwf, hi1]
      · show (tables_update ft.tables e.table_id _ e.table_id).checksum =
          listXor (tableCookies e.table_id (ft.all_list.erase e))
        rw [tables_update_self, ft_checksum_xor_checksum,
          listXor_tableCookies_erase _ _ _ he, if_pos rfl, hi2]
    · refine ⟨?_, ?_, ?_⟩
      · show table_wf (tables_update ft.tables e.table_id _ tid)
        rw [tables_update_other _ _ _ ht]
        exact hwf
      · show (tables_update ft.tables e.table_id _ tid).checksum =
          listXor (tables_update ft.tables e.table_id _ tid).checksum_buckets
        rw [tables_update_other _ _ _ ht]
        exact hi1
      · show (tables_update ft.tables e.table_id _ tid).checksum =
          listXor (tableCookies tid (ft.all_list.erase e))
        rw [tables_update_other _ _ _ ht, listXor_tableCookies_erase _ _ _ he,
          if_neg (fun hh => ht hh.symm), Nat.xor_zero]
        exact hi2

theorem ft_wf_overwrite (ft : ft_public_s) (e : ft_entry_t)
    (c fx : Nat) (he : e ∈ ft.all_list) (h : ft_wf ft) :
    ft_wf (ft_overwrite ft e c fx) := by
  obtain ⟨hk, htab⟩ := h
  have hnd : ft.all_list.Nodup := keysUnique_nodup hk
  constructor
  · show keysUnique (ft.all_list.map
      (fun x => if x = e then { e with cookie := c, effects := fx } else x))
    exact keysUnique_replace hk rfl
  · intro tid
    obtain ⟨hwf, hi1, hi2⟩ := htab tid
    by_cases ht : tid = e.table_id
    · subst ht
      refine ⟨?_, ?_, ?_⟩
      · show table_wf (tables_update ft.tables e.table_id _ e.table_id)
        rw [tables_update_self]
        exact ft_checksum_xor_wf (ft_checksum_xor_wf hwf e.cookie) c
      · show (tables_update ft.tables e.table_id _ e.table_id).checksum =
          listXor (tables_update ft.tables e.table_id _
            e.table_id).checksum_buckets
        rw [tables_update_self, ft_checksum_xor_checksum,
          ft_checksum_xor_checksum,
          ft_checksum_xor_buckets_xor (ft_checksum_xor_wf hwf e.cookie) c,
          ft_checksum_xor_buckets_xor hwf e.cookie, hi1]
      · show (tables_update ft.tables e.table_id _ e.table_id).checksum =
          listXor (tableCookies e.table_id (ft.all_list.map
            (fun x => if x = e then { e with cookie := c, effects := fx }
              else x)))
        rw [tables_update_self, ft_checksum_xor_checksum,
          ft_checksum_xor_checksum,
          listXor_tableCookies_replace e.table_id ft.all_list e
            { e with cookie := c, effects := fx } he hnd rfl,
          if_pos rfl, hi2, Nat.xor_assoc]
    · refine ⟨?_, ?_, ?_⟩
      · show table_wf (tables_update ft.tables e.table_id _ tid)
        rw [tables_update_other _ _ _ ht]
        exact hwf
      · show (tables_update ft.tables e.table_id _ tid).checksum =
          listXor (tables_update ft.tables e.table_id _ tid).checksum_buckets
        rw [tables_update_other _ _ _ ht]
        exact hi1
      · show (tables_update ft.tables e.table_id _ tid).checksum =
          listXor (tableCookies tid (ft.all_list.map
            (fun x => if x = e then { e with cookie := c, effects := fx }
              else x)))
        rw [tables_update_other _ _ _ ht,
          listXor_tableCookies_replace tid ft.all_list e
            { e with cookie := c, effects := fx } he hnd rfl,
          if_neg (fun hh => ht hh.symm), Nat.xor_zero]
        exact hi2

theorem ft_wf_modify_effects (ft : ft_public_s) (e : ft_entry_t)
    (fx : Nat) (he : e ∈ ft.all_list) (h : ft_wf ft) :
    ft_wf (ft_entry_modify_effects ft e fx) := by
  obtain ⟨hk, htab⟩ := h
  have hnd : ft.all_list.Nodup := keysUnique_nodup hk
  constructor
  · show keysUnique (ft.all_list.map
      (fun x => if x = e then { e with effects := fx } else x))
    exact keysUnique_replace hk rfl
  · intro tid
    obtain ⟨hwf, hi1, hi2⟩ := htab tid
    refine ⟨hwf, hi1, ?_⟩
    show (ft.tables tid).checksum =
      listXor (tableCookies tid (ft.all_list.map
        (fun x => if x = e then { e with effects := fx } else x)))
    rw [listXor_tableCookies_replace tid ft.all_list e
        { e with effects := fx } he hnd rfl]
    by_cases hcond : e.table_id = tid
    · rw [if_pos hcond]
      show (ft.tables tid).checksum =
        listXor (tableCookies tid ft.all_list) ^^^ (e.cookie ^^^ e.cookie)
      rw [Nat.xor_self, Nat.xor_zero]
      exact hi2
    · rw [if_neg hcond, Nat.xor_zero]
      exact hi2

theorem ft_wf_set_checksum_buckets_size (ft : ft_public_s)
    (table_id n : Nat) (h : ft_wf ft) :
    ft_wf (ft_set_checksum_buckets_size ft table_id n).2 := by
  by_cases hp : is_power_of_two n = true
  · rw [ft_set_checksum_buckets_size, if_pos hp]
    obtain ⟨hk, htab⟩ := h
    refine ⟨hk, ?_⟩
    intro tid
    obtain ⟨hwf, hi1, hi2⟩ := htab tid
    by_cases ht : tid = table_id
    · subst ht
      have hn : n = 2 ^ ft_log2 n := is_power_of_two_spec n hp
      have hbound : ∀ x ∈ ft.all_list.filter (fun e => e.table_id == tid),
          cookie_bucket_index (64 - ft_log2 n) x.cookie < n := by
        intro x _
        calc cookie_bucket_index (64 - ft_log2 n) x.cookie < 2 ^ ft_log2 n :=
          cookie_bucket_index_lt (ft_log2 n) x.cookie
        _ = n := hn.symm
      refine ⟨?_, ?_, ?_⟩
      · show table_wf (tables_update ft.tables tid _ tid)
        rw [tables_update_self]
        exact ⟨rebuild_buckets_length _ _ n, hn, rfl⟩
      · show (tables_update ft.tables tid _ tid).checksum =
          listXor (tables_update ft.tables tid _ tid).checksum_buckets
        rw [tables_update_self]
        show (ft.tables tid).checksum = listXor (rebuild_buckets
          (64 - ft_log2 n) (ft.all_list.filter (fun e => e.table_id == tid)) n)
        rw [rebuild_buckets_xor _ _ _ hbound]
        exact hi2
      · show (tables_update ft.tables tid _ tid).checksum =
          listXor (tableCookies tid ft.all_list)
        rw [tables_update_self]
        exact hi2
    · refine ⟨?_, ?_, ?_⟩
      · show table_wf (tables_update ft.tables table_id _ tid)
        rw [tables_update_other _ _ _ ht]
        exact hwf
      · show (tables_update ft.tables table_id _ tid).checksum =
          listXor (tables_update ft.tables table_id _ tid).checksum_buckets
        rw [tables_update_other _ _ _ ht]
        exact hi1
      · show (tables_update ft.tables table_id _ tid).checksum =
          listXor (tableCookies tid ft.all_list)
        rw [tables_update_other _ _ _ ht]
        exact hi2
  · rw [ft_set_checksum_buckets_size, if_neg hp]
    exact h

theorem ft_wf_apply_op (ft : ft_public_s) (op : ft_op) (h : ft_wf ft) :
    ft_wf (ft_apply_op ft op) := by
  cases op with
  | op_add e => exact ft_wf_add ft e h
  | op_delete e =>
    rw [ft_apply_op]
    by_cases he : e ∈ ft.all_list
    · rw [if_pos he]
      exact ft_wf_delete ft [] e he h
    · rw [if_neg he]
      exact h
  | op_overwrite e c fx =>
    rw [ft_apply_op]
    by_cases he : e ∈ ft.all_list
    · rw [if_pos he]
      exact ft_wf_overwrite ft e c fx he h
    · rw [if_neg he]
      exact h
  | op_modify_effects e fx =>
    rw [ft_apply_op]
    by_cases he : e ∈ ft.all_list
    · rw [if_pos he]
      exact ft_wf_modify_effects ft e fx he h
    · rw [if_neg he]
      exact h
  | op_set_checksum_buckets_size tid n =>
    exact ft_wf_set_checksum_buckets_size ft tid n h

theorem ft_wf_apply_ops (ft : ft_public_s) (ops : List ft_op)
    (h : ft_wf ft) : ft_wf (ft_apply_ops ft ops) := by
  induction ops generalizing ft with
  | nil => exact h
  | cons op ops ih =>
    exact ih (ft_apply_op ft op) (ft_wf_apply_op ft op h)

/-! ## Successor and iterator walk lemmas -/

theorem list_successor_eq_head (l : List ft_entry_t) (e : ft_entry_t) :
    list_successor l e = (entries_after l e).head? := by
  induction l with
  | nil => rfl
  | cons x xs ih =>
    by_cases hx : x = e
    · simp [list_successor, entries_after, hx]
    · simp [list_successor, entries_after, hx, ih]

theorem entries_after_of_not_mem {l : List ft_entry_t} {e : ft_entry_t}
    (h : e ∉ l) : entries_after l e = [] := by
  induction l with
  | nil => rfl
  | cons x xs ih =>
    have hx : x ≠ e := fun hx => h (hx ▸ List.mem_cons_self x xs)
    have hxs : e ∉ xs := fun hxs => h (List.mem_cons_of_mem x hxs)
    simp [entries_after, hx, Ne.symm hx, ih hxs]

theorem not_mem_entries_after {l : List ft_entry_t} {e : ft_entry_t}
    (hnd : l.Nodup) : e ∉ entries_after l e := by
  induction l with
  | nil => simp [entries_after]
  | cons x xs ih =>
    by_cases hx : x = e
    · subst hx
      simp only [entries_after, if_pos rfl]
      exact (List.nodup_cons.mp hnd).1
    · simp only [entries_after, if_neg hx]
      exact ih (List.nodup_cons.mp hnd).2

theorem mem_of_head?_eq_some {l : List ft_entry_t} {a : ft_entry_t}
    (h : l.head? = some a) : a ∈ l := by
  cases l with
  | nil => cases h
  | cons x xs =>
    rw [List.head?_cons, Option.some.injEq] at h
    exact h ▸ List.mem_cons_self x xs

theorem list_successor_ne_self {l : List ft_entry_t} {e : ft_entry_t}
    (hnd : l.Nodup) : list_successor l e ≠ some e := by
  rw [list_successor_eq_head]
  intro hcontra
  exact not_mem_entries_after hnd (mem_of_head?_eq_some hcontra)

theorem entries_after_append_cons (p : List ft_entry_t) (e : ft_entry_t)
    (xs : List ft_entry_t) (hp : e ∉ p) :
    entries_after (p ++ e :: xs) e = xs := by
  induction p with
  | nil => simp [entries_after]
  | cons y ys ih =>
    have hy : y ≠ e := fun hy => hp (hy ▸ List.mem_cons_self y ys)
    have hys : e ∉ ys := fun hys => hp (List.mem_cons_of_mem y hys)
    simp only [List.cons_append, entries_after, if_neg hy]
    exact ih hys

theorem erase_append_cons (p : List ft_entry_t) (e : ft_entry_t)
    (xs : List ft_entry_t) (hp : e ∉ p) :
    (p ++ e :: xs).erase e = p ++ xs := by
  induction p with
  | nil => simp [List.erase_cons_head]
  | cons y ys ih =>
    have hy : y ≠ e := fun hy => hp (hy ▸ List.mem_cons_self y ys)
    have hys : e ∉ ys := fun hys => hp (List.mem_cons_of_mem y hys)
    rw [List.cons_append,
      show (y :: (ys ++ e :: xs)).erase e = y :: (ys ++ e :: xs).erase e from
        List.erase_cons_tail (by simp [hy]),
      ih hys, List.cons_append]

theorem find?_applyQuery_none (l : List ft_entry_t) :
    l.find? (applyQuery none) = l.head? := by
  cases l with
  | nil => rfl
  | cons x xs => simp [List.find?_cons, applyQuery]

theorem iter_collect_some (fuel : Nat) (ft : ft_public_s)
    (φ : Option (ft_entry_t → Bool)) (e : ft_entry_t) :
    iter_collect (fuel + 1) ft ⟨some e, φ⟩ =
      some e :: iter_collect fuel ft ⟨next_matching ft.all_list e φ, φ⟩ := rfl

theorem iter_collect_filter (ft : ft_public_s)
    (φ : Option (ft_entry_t → Bool)) :
    ∀ (l2 l1 : List ft_entry_t) (fuel : Nat),
      ft.all_list = l1 ++ l2 → ft.all_list.Nodup → l2.length + 1 ≤ fuel →
      iter_collect fuel ft ⟨l2.find? (applyQuery φ), φ⟩ =
        (l2.filter (applyQuery φ)).map some ++ [none] := by
  intro l2
  induction l2 with
  | nil =>
    intro l1 fuel hsplit hnd hfuel
    match fuel, hfuel with
    | fuel + 1, _ => simp [iter_collect, ft_iterator_next, List.filter]
  | cons a xs ih =>
    intro l1 fuel hsplit hnd hfuel
    match fuel, hfuel with
    | fuel + 1, hfuel =>
      have ha_mem : a ∉ l1 := by
        have hnd' := hsplit ▸ hnd
        rw [List.nodup_append] at hnd'
        exact fun hal1 => hnd'.2.2 hal1 (List.mem_cons_self a xs)
      by_cases hq : applyQuery φ a = true
      · rw [show (a :: xs).find? (applyQuery φ) = some a from by
            simp [List.find?_cons, hq],
          iter_collect_some]
        have hnext : next_matching ft.all_list a φ =
            xs.find? (applyQuery φ) := by
          rw [next_matching, hsplit, entries_after_append_cons l1 a xs ha_mem]
        rw [hnext, ih (l1 ++ [a]) fuel (by rw [hsplit]; simp) hnd (by
          simpa using Nat.le_of_succ_le_succ hfuel)]
        simp [List.filter_cons, hq]
      · rw [show (a :: xs).find? (applyQuery φ) = xs.find? (applyQuery φ)
            from by simp [List.find?_cons, hq],
          ih (l1 ++ [a]) (fuel + 1) (by rw [hsplit]; simp) hnd (by
            simp only [List.length_cons] at hfuel; omega)]
        simp [List.filter_cons, hq]

theorem ft_iter_loop_some (fuel : Nat) (st : ft_public_s) (e : ft_entry_t)
    (body : ft_public_s → ft_entry_t → ft_public_s) :
    ft_iter_loop (fuel + 1) st (some e) body =
      ((ft_iter_loop fuel (body st e) (list_successor st.all_list e) body).1,
        e :: (ft_iter_loop fuel (body st e)
          (list_successor st.all_list e) body).2) := rfl

theorem ft_iter_loop_walk (body : ft_public_s → ft_entry_t → ft_public_s)
    (hbody : ∀ st e, (body st e).all_list = st.all_list ∨
      (body st e).all_list = st.all_list.erase e) :
    ∀ (l2 p : List ft_entry_t) (st : ft_public_s),
      st.all_list = p ++ l2 → (p ++ l2).Nodup →
      (ft_iter_loop (l2.length + 1) st l2.head? body).2 = l2 := by
  intro l2
  induction l2 with
  | nil => intro p st hsplit hnd; rfl
  | cons e xs ih =>
    intro p st hsplit hnd
    have hep : e ∉ p := by
      rw [List.nodup_append] at hnd
      exact fun hep => hnd.2.2 hep (List.mem_cons_self e xs)
    have hsucc : list_successor st.all_list e = xs.head? := by
      rw [list_successor_eq_head, hsplit, entries_after_append_cons p e xs hep]
    show (ft_iter_loop (xs.length + 1 + 1) st (some e) body).2 = e :: xs
    rw [ft_iter_loop_some, hsucc]
    show e :: (ft_iter_loop (xs.length + 1) (body st e) xs.head? body).2 =
      e :: xs
    cases hbody st e with
    | inl hsame =>
      rw [ih (p ++ [e]) (body st e) (by rw [hsame, hsplit]; simp)
        (by simpa using hnd)]
    | inr herase =>
      rw [ih p (body st e) (by rw [herase, hsplit,
          erase_append_cons p e xs hep])
        ((List.Sublist.append_left (List.sublist_cons_self e xs) p).nodup hnd)]

/-! ## Auxiliary facts about the iterator step -/

theorem ft_iterator_next_fst (ft : ft_public_s) (it : ft_iterator_t) :
    (ft_iterator_next ft it).1 = it.next_entry := by
  cases h : it.next_entry <;> simp [ft_iterator_next, h]

/-! ## The claims -/

/-- C1: if an entry `e` is deleted while any number of live Safe Iterators
hold `e` as their next-to-return entry, `ft_delete` advances each of them,
and a subsequent `ft_iterator_next` on each returns `e`'s successor in the
Global List (end-of-sequence if `e` was last) and never `e` itself. -/
theorem ft_C1_iterator_advance (ft : ft_public_s) (iters : List ft_iterator_t)
    (e : ft_entry_t) (hnd : ft.all_list.Nodup) (he : e ∈ ft.all_list)
    (hall : ∀ it ∈ iters, it.next_entry = some e) :
    (ft_delete ft iters e).2 = iters.map (ft_iterator_fixup ft.all_list e) ∧
    ∀ it ∈ iters,
      (ft_iterator_next (ft_delete ft iters e).1
        (ft_iterator_fixup ft.all_list e it)).1 =
          list_successor ft.all_list e ∧
      (ft_iterator_next (ft_delete ft iters e).1
        (ft_iterator_fixup ft.all_list e it)).1 ≠ some e := by
  refine ⟨rfl, ?_⟩
  intro it hit
  have hfix : ft_iterator_fixup ft.all_list e it =
      { it with next_entry := list_successor ft.all_list e } := by
    rw [ft_iterator_fixup, if_pos (hall it hit)]
  rw [ft_iterator_next_fst, hfix]
  exact ⟨rfl, list_successor_ne_self hnd⟩

/-- Witness for C1: two iterators parked on the first of two entries; after
deleting it, both return the second entry, not the deleted one. -/
theorem ft_C1_witness :
    (ft_iterator_next (ft_delete ftW12 [itW1, itW2] eW1).1
      (ft_iterator_fixup ftW12.all_list eW1 itW1)).1 = some eW2 ∧
    (ft_iterator_next (ft_delete ftW12 [itW1, itW2] eW1).1
      (ft_iterator_fixup ftW12.all_list eW1 itW2)).1 ≠ some eW1 := by
  obtain ⟨-, h2⟩ := ft_C1_iterator_advance ftW12 [itW1, itW2] eW1
    (by decide) (by decide) (by simp [itW1, itW2])
  have ha := h2 itW1 (List.mem_cons_self _ _)
  have hb := h2 itW2 (List.mem_cons_of_mem _ (List.mem_cons_self _ _))
  refine ⟨?_, hb.2⟩
  rw [ha.1]
  decide

/-- C2: for every table, after any sequence of add, delete, overwrite,
modify-effects and checksum-bucket-resize operations from a well-formed
instance, the running checksum equals the XOR over all bucket accumulators
and equals the XOR of the cookies of the table's live entries. -/
theorem ft_C2_checksum_invariant (ft : ft_public_s) (ops : List ft_op)
    (h : ft_wf ft) (tid : Nat) :
    ((ft_apply_ops ft ops).tables tid).checksum =
      listXor ((ft_apply_ops ft ops).tables tid).checksum_buckets ∧
    ((ft_apply_ops ft ops).tables tid).checksum =
      listXor (tableCookies tid (ft_apply_ops ft ops).all_list) := by
  obtain ⟨-, htab⟩ := ft_wf_apply_ops ft ops h
  exact ⟨(htab tid).2.1, (htab tid).2.2⟩

/-- Witness for C2 at a concrete operation sequence (add, add, resize,
delete) from an empty well-formed instance. -/
theorem ft_C2_witness :
    ((ft_apply_ops ftW0 opsW).tables 0).checksum =
      listXor ((ft_apply_ops ftW0 opsW).tables 0).checksum_buckets ∧
    ((ft_apply_ops ftW0 opsW).tables 0).checksum =
      listXor (tableCookies 0 (ft_apply_ops ftW0 opsW).all_list) :=
  ft_C2_checksum_invariant ftW0 opsW
    ⟨List.Pairwise.nil, fun _ => ⟨⟨rfl, rfl, rfl⟩, rfl, rfl⟩⟩ 0

/-- C3: a successful `ft_add` of an entry followed by `ft_delete` of that
same entry returns every table's running checksum and bucket accumulator
array exactly to their pre-add values. -/
theorem ft_C3_add_delete_restores (ft : ft_public_s) (e : ft_entry_t)
    (hok : (ft_add ft e).1 = .INDIGO_ERROR_NONE) (tid : Nat) :
    ((ft_delete (ft_add ft e).2 [] e).1.tables tid).checksum =
      (ft.tables tid).checksum ∧
    ((ft_delete (ft_add ft e).2 [] e).1.tables tid).checksum_buckets =
      (ft.tables tid).checksum_buckets := by
  by_cases hdup :
      (ft.all_list.any fun x => strict_key x == strict_key e) = true
  · rw [ft_add, if_pos hdup] at hok
    cases hok
  · rw [ft_add, if_neg hdup]
    by_cases ht : tid = e.table_id
    · subst ht
      constructor
      · show (tables_update (tables_update ft.tables e.table_id
            (ft_checksum_xor (ft.tables e.table_id) e.cookie)) e.table_id
            (ft_checksum_xor (tables_update ft.tables e.table_id
              (ft_checksum_xor (ft.tables e.table_id) e.cookie) e.table_id)
              e.cookie) e.table_id).checksum = (ft.tables e.table_id).checksum
        rw [tables_update_self, tables_update_self, ft_checksum_xor_checksum,
          ft_checksum_xor_checksum, Nat.xor_assoc, Nat.xor_self, Nat.xor_zero]
      · show (tables_update (tables_update ft.tables e.table_id
            (ft_checksum_xor (ft.tables e.table_id) e.cookie)) e.table_id
            (ft_checksum_xor (tables_update ft.tables e.table_id
              (ft_checksum_xor (ft.tables e.table_id) e.cookie) e.table_id)
              e.cookie) e.table_id).checksum_buckets =
          (ft.tables e.table_id).checksum_buckets
        rw [tables_update_self, tables_update_self]
        exact listSet_xor_xor (ft.tables e.table_id).checksum_buckets
          (cookie_bucket_index (ft.tables e.table_id).checksum_shift e.cookie)
          e.cookie
    · constructor
      · show (tables_update (tables_update ft.tables e.table_id
            (ft_checksum_xor (ft.tables e.table_id) e.cookie)) e.table_id
            (ft_checksum_xor (tables_update ft.tables e.table_id
              (ft_checksum_xor (ft.tables e.table_id) e.cookie) e.table_id)
              e.cookie) tid).checksum = (ft.tables tid).checksum
        rw [tables_update_other _ _ _ ht, tables_update_other _ _ _ ht]
      · show (tables_update (tables_update ft.tables e.table_id
            (ft_checksum_xor (ft.tables e.table_id) e.cookie)) e.table_id
            (ft_checksum_xor (tables_update ft.tables e.table_id
              (ft_checksum_xor (ft.tables e.table_id) e.cookie) e.table_id)
              e.cookie) tid).checksum_buckets =
          (ft.tables tid).checksum_buckets
        rw [tables_update_other _ _ _ ht, tables_update_other _ _ _ ht]

/-- Witness for C3: add then delete of a concrete entry restores table 0's
checksum and bucket array. -/
theorem ft_C3_witness :
    ((ft_delete (ft_add ftW0 eW1).2 [] eW1).1.tables 0).checksum =
      (ftW0.tables 0).checksum ∧
    ((ft_delete (ft_add ftW0 eW1).2 [] eW1).1.tables 0).checksum_buckets =
      (ftW0.tables 0).checksum_buckets :=
  ft_C3_add_delete_restores ftW0 eW1 (by decide) 0

/-- C4: `ft_add` of an entry whose strict (table, priority, match) key is
already live fails with DUPLICATE and performs no mutation: the returned
state is identical to the pre-call state (count, Global List, checksums,
bucket accumulators and derived index contents all unchanged). -/
theorem ft_C4_duplicate_rejected (ft : ft_public_s) (e : ft_entry_t)
    (h : ∃ x ∈ ft.all_list, strict_key x = strict_key e) :
    ft_add ft e = (.INDIGO_ERROR_EXISTS, ft) := by
  rw [ft_add, if_pos]
  rw [List.any_eq_true]
  obtain ⟨x, hx, hk⟩ := h
  exact ⟨x, hx, by simpa using hk⟩

/-- Witness for C4: adding an entry with `eW1`'s key to a table holding
`eW1` is rejected and changes nothing. -/
theorem ft_C4_witness : ft_add ftW1 eWdup = (.INDIGO_ERROR_EXISTS, ftW1) :=
  ft_C4_duplicate_rejected ftW1 eWdup ⟨eW1, by decide, by decide⟩

/-- C5: after a successful power-of-two resize of a table's checksum bucket
array, the XOR over all bucket accumulators equals the table's running
checksum, which equals the XOR of the cookies of the table's live entries;
the running checksum itself is unchanged by the resize. -/
theorem ft_C5_resize_correct (ft : ft_public_s) (tid n : Nat)
    (hp : is_power_of_two n = true)
    (hcs : (ft.tables tid).checksum =
      listXor (tableCookies tid ft.all_list)) :
    (ft_set_checksum_buckets_size ft tid n).1 = .INDIGO_ERROR_NONE ∧
    ((ft_set_checksum_buckets_size ft tid n).2.tables tid).checksum =
      (ft.tables tid).checksum ∧
    listXor ((ft_set_checksum_buckets_size ft tid
        n).2.tables tid).checksum_buckets =
      ((ft_set_checksum_buckets_size ft tid n).2.tables tid).checksum ∧
    ((ft_set_checksum_buckets_size ft tid n).2.tables tid).checksum =
      listXor (tableCookies tid
        (ft_set_checksum_buckets_size ft tid n).2.all_list) := by
  rw [ft_set_checksum_buckets_size, if_pos hp]
  have hn : n = 2 ^ ft_log2 n := is_power_of_two_spec n hp
  have hbound : ∀ x ∈ ft.all_list.filter (fun e => e.table_id == tid),
      cookie_bucket_index (64 - ft_log2 n) x.cookie < n := by
    intro x _
    calc cookie_bucket_index (64 - ft_log2 n) x.cookie < 2 ^ ft_log2 n :=
      cookie_bucket_index_lt (ft_log2 n) x.cookie
    _ = n := hn.symm
  refine ⟨rfl, ?_, ?_, ?_⟩
  · show (tables_update ft.tables tid _ tid).checksum =
      (ft.tables tid).checksum
    rw [tables_update_self]
  · show listXor (tables_update ft.tables tid _ tid).checksum_buckets =
      (tables_update ft.tables tid _ tid).checksum
    rw [tables_update_self]
    show listXor (rebuild_buckets (64 - ft_log2 n)
        (ft.all_list.filter (fun e => e.table_id == tid)) n) =
      (ft.tables tid).checksum
    rw [rebuild_buckets_xor _ _ _ hbound]
    exact hcs.symm
  · show (tables_update ft.tables tid _ tid).checksum =
      listXor (tableCookies tid ft.all_list)
    rw [tables_update_self]
    exact hcs

/-- Witness for C5: resizing table 0 to 8 buckets on a two-entry instance. -/
theorem ft_C5_witness :
    (ft_set_checksum_buckets_size (ft_apply_ops ftW0
      [ft_op.op_add eW1, ft_op.op_add eW2]) 0 8).1 = .INDIGO_ERROR_NONE ∧
    ((ft_set_checksum_buckets_size (ft_apply_ops ftW0
        [ft_op.op_add eW1, ft_op.op_add eW2]) 0 8).2.tables 0).checksum =
      ((ft_apply_ops ftW0
        [ft_op.op_add eW1, ft_op.op_add eW2]).tables 0).checksum ∧
    listXor ((ft_set_checksum_buckets_size (ft_apply_ops ftW0
        [ft_op.op_add eW1, ft_op.op_add eW2]) 0 8).2.tables
          0).checksum_buckets =
      ((ft_set_checksum_buckets_size (ft_apply_ops ftW0
        [ft_op.op_add eW1, ft_op.op_add eW2]) 0 8).2.tables 0).checksum ∧
    ((ft_set_checksum_buckets_size (ft_apply_ops ftW0
        [ft_op.op_add eW1, ft_op.op_add eW2]) 0 8).2.tables 0).checksum =
      listXor (tableCookies 0 (ft_set_checksum_buckets_size (ft_apply_ops ftW0
        [ft_op.op_add eW1, ft_op.op_add eW2]) 0 8).2.all_list) :=
  ft_C5_resize_correct (ft_apply_ops ftW0
    [ft_op.op_add eW1, ft_op.op_add eW2]) 0 8 (by decide) (by decide)

/-- C6: `ft_set_checksum_buckets_size` with a size that is not a power of
two is rejected with INVALID_SIZE before any mutation: it returns an error
and the instance (bucket array, shift and checksum state) is unchanged. -/
theorem ft_C6_resize_rejected (ft : ft_public_s) (tid n : Nat)
    (h : is_power_of_two n = false) :
    ft_set_checksum_buckets_size ft tid n = (.INDIGO_ERROR_PARAM, ft) := by
  rw [ft_set_checksum_buckets_size, if_neg (by simp [h])]

/-- Witness for C6: size 6 is rejected and the instance is unchanged. -/
theorem ft_C6_witness :
    ft_set_checksum_buckets_size ftW0 0 6 = (.INDIGO_ERROR_PARAM, ftW0) :=
  ft_C6_resize_rejected ftW0 0 6 (by decide)

/-- C7: `ft_strict_match` returns an entry iff a live entry with exactly the
queried (table, priority, match) key exists — in which case it returns that
unique entry — and returns NOT_FOUND exactly when no live entry has the
key. -/
theorem ft_C7_strict_match_spec (ft : ft_public_s) (q : of_meta_match_t)
    (hk : keysUnique ft.all_list) :
    (∀ e : ft_entry_t, ft_strict_match ft q = .ok e ↔
      e ∈ ft.all_list ∧ strict_key e = query_strict_key q) ∧
    (ft_strict_match ft q = .error .INDIGO_ERROR_NOT_FOUND ↔
      ∀ e ∈ ft.all_list, strict_key e ≠ query_strict_key q) := by
  cases hfind : ft.all_list.find?
      (fun e => strict_key e == query_strict_key q) with
  | none =>
    have hnone := List.find?_eq_none.mp hfind
    constructor
    · intro e
      constructor
      · intro hok
        rw [ft_strict_match, hfind] at hok
        cases hok
      · rintro ⟨he, hkey⟩
        exact absurd (by simpa using hkey) (hnone e he)
    · constructor
      · intro _ e he
        exact fun hkey => hnone e he (by simpa using hkey)
      · intro _
        rw [ft_strict_match, hfind]
  | some a =>
    have hpa : strict_key a = query_strict_key q := by
      simpa using List.find?_some hfind
    have hma : a ∈ ft.all_list := List.mem_of_find?_eq_some hfind
    constructor
    · intro e
      constructor
      · intro hok
        rw [ft_strict_match, hfind] at hok
        rw [Except.ok.injEq] at hok
        subst hok
        exact ⟨hma, hpa⟩
      · rintro ⟨he, hkey⟩
        have : e = a := keysUnique_key_inj hk he hma (hkey.trans hpa.symm)
        subst this
        rw [ft_strict_match, hfind]
    · constructor
      · intro hcontra
        rw [ft_strict_match, hfind] at hcontra
        cases hcontra
      · intro hnone
        exact absurd hpa (hnone a hma)

/-- Witness for C7: after adding `eW1`, strict match on its key returns it;
after deleting it, strict match on the same key returns NOT_FOUND. -/
theorem ft_C7_witness :
    ft_strict_match (ft_add ftW0 eW1).2 qW = .ok eW1 ∧
    ft_strict_match (ft_delete (ft_add ftW0 eW1).2 [] eW1).1 qW =
      .error .INDIGO_ERROR_NOT_FOUND := by
  constructor
  · exact ((ft_C7_strict_match_spec (ft_add ftW0 eW1).2 qW
      (by unfold keysUnique; decide)).1 eW1).mpr ⟨by decide, by decide⟩
  · exact (ft_C7_strict_match_spec (ft_delete (ft_add ftW0 eW1).2 [] eW1).1 qW
      (by unfold keysUnique; decide)).2.mpr (by decide)

/-- C8: the background iteration task spawned over a table whose contents
are not mutated during the traversal yields one callback per entry matching
the query, in Global-List order, followed by exactly one terminal null
callback. -/
theorem ft_C8_iter_task_trace (ft : ft_public_s)
    (φ : Option (ft_entry_t → Bool)) (hnd : ft.all_list.Nodup) :
    ft_spawn_iter_task_trace ft φ =
      (ft.all_list.filter (applyQuery φ)).map some ++ [none] := by
  rw [ft_spawn_iter_task_trace]
  exact iter_collect_filter ft φ ft.all_list [] (ft.all_list.length + 1)
    (by simp) hnd (Nat.le_refl _)

/-- Witness for C8: a three-entry table with no filter yields exactly three
entry callbacks, one per entry in order, then one null callback. -/
theorem ft_C8_witness :
    ft_spawn_iter_task_trace ftW123 none =
      [some eW1, some eW2, some eW3, none] := by
  rw [ft_C8_iter_task_trace ftW123 none (by decide)]
  decide

/-- C9: the cookie prefix used to select a checksum bucket is the high-order
8 bits of the 64-bit cookie: the mask of ft.h equals 0xFF00000000000000, and
the bucket index is the masked cookie shifted down by the table's current
shift value. -/
theorem ft_C9_cookie_prefix :
    FT_COOKIE_PREFIX_MASK = 0xFF00000000000000 ∧
    ∀ shift cookie : Nat, cookie_bucket_index shift cookie =
      (cookie &&& 0xFF00000000000000) >>> shift := by
  have hm : FT_COOKIE_PREFIX_MASK = 0xFF00000000000000 := by decide
  exact ⟨hm, fun shift cookie => by rw [cookie_bucket_index, hm]⟩

/-- C10: the FT_ITER traversal visits, in list order, exactly the entries
present in the Global List when the traversal starts (zero body executions
on an empty table), and a body that at most unlinks the current entry does
not change which entries are visited, because the successor link is saved
before each body execution. -/
theorem ft_C10_iter_visits (ft : ft_public_s)
    (body : ft_public_s → ft_entry_t → ft_public_s)
    (hnd : ft.all_list.Nodup)
    (hbody : ∀ st e, (body st e).all_list = st.all_list ∨
      (body st e).all_list = st.all_list.erase e) :
    (FT_ITER_run ft body).2 = ft.all_list := by
  rw [FT_ITER_run]
  exact ft_iter_loop_walk body hbody ft.all_list [] ft (by simp)
    (by simpa using hnd)

/-- Witness for C10: a body that deletes every visited entry still visits
both entries of a two-entry table, in order. -/
theorem ft_C10_witness : (FT_ITER_run ftW12 bodyW).2 = [eW1, eW2] := by
  rw [ft_C10_iter_visits ftW12 bodyW (by decide) (fun st e => Or.inr rfl)]
  decide
